import Mathlib

/-!
Shallow embedding of the camera pose optimizer of this repository
(`src/nerfstudio/cameras/camera_optimizers.py`), and proofs of the
specified properties of its operations.

Conventions: tensors become lists of rows, scalars become real numbers,
a raised Python exception becomes `none` (or `Except.error` carrying the
state at the raise point), and in-place mutation becomes returning the
post-state.  Components the file imports from outside this repository
(`lie_groups`, `poses`, the `RayBundle` and `Cameras` containers) are
modelled from the spec, marked as such in their doc comments.
-/

/-- Pose optimization strategy: the four `mode` literals of `CameraOptimizerConfig`. -/
inductive Mode
  | off
  | SO3xR3
  | SE3
  | shared_SO3xR3
deriving DecidableEq, Repr

/-- Configuration of optimization for camera poses (`CameraOptimizerConfig`):
the mode and the penalty factors used by `get_loss_dict`. -/
structure CameraOptimizerConfig where
  mode : Mode
  trans_l2_penalty : ℝ
  rot_l2_penalty : ℝ
  penalty_scale : ℝ

/-- A row of the pose-adjustment parameter block: 6 scalars,
first 3 translation components, last 3 rotation components. -/
def Vec6 : Type := Fin 6 → ℝ

/-- The all-zero parameter row (`torch.zeros`). -/
def vzero : Vec6 := fun _ => 0

/-- A 3x4 rigid-transform matrix: rotation 3x3 block, translation in column 3. -/
def Mat34 : Type := Fin 3 → Fin 4 → ℝ

/-- A 4x4 matrix of reals. -/
def Mat44 : Type := Fin 4 → Fin 4 → ℝ

/-- The 3x4 identity transform as the code builds it: `torch.eye(4)[:3, :4]`. -/
def identity34 : Mat34 := fun i j => if (i : ℕ) = (j : ℕ) then 1 else 0

/-- Assemble a 3x4 transform from a rotation block and a translation column. -/
def mat34 (R : Matrix (Fin 3) (Fin 3) ℝ) (t : Fin 3 → ℝ) : Mat34 :=
  fun i j => if h : (j : ℕ) < 3 then R i ⟨j, h⟩ else t i

/-- The 3x3 rotation block of a 3x4 transform (`[:, :3, :3]`). -/
def rotOf (m : Mat34) : Matrix (Fin 3) (Fin 3) ℝ := fun i k => m i (Fin.castSucc k)

/-- The translation column of a 3x4 transform (`[:, :3, 3]`). -/
def transOf (m : Mat34) : Fin 3 → ℝ := fun i => m i 3

/-- Modelled from the spec: the skew-symmetric matrix `skew(v_rot)` of the Lie-map
engine.  The repository imports its Lie maps from `nerfstudio/cameras/lie_groups.py`,
which is not among this repository's source files. -/
def skew (w : Fin 3 → ℝ) : Matrix (Fin 3) (Fin 3) ℝ :=
  Matrix.of ![![0, -w 2, w 1], ![w 2, 0, -w 0], ![-w 1, w 0, 0]]

/-- Modelled from the spec: the SO3 exponential `exp(skew(w))` by the Rodrigues
formula, the near-zero branch taken exactly at zero angle (its series value), so the
zero vector maps to the identity rotation without division by zero. -/
noncomputable def so3Exp (w : Fin 3 → ℝ) : Matrix (Fin 3) (Fin 3) ℝ :=
  let tsq := w 0 ^ 2 + w 1 ^ 2 + w 2 ^ 2
  let A := if tsq = 0 then 1 else Real.sin (Real.sqrt tsq) / Real.sqrt tsq
  let B := if tsq = 0 then 1 / 2 else (1 - Real.cos (Real.sqrt tsq)) / tsq
  1 + A • skew w + B • (skew w * skew w)

/-- Modelled from the spec: the decoupled exponential map `lie_groups.exp_map_SO3xR3`
on one 6-vector row: rotation `exp(skew(v_rot))` from the last 3 components,
translation the first 3 components directly (no coupling). -/
noncomputable def exp_map_SO3xR3 (v : Vec6) : Mat34 :=
  mat34 (so3Exp ![v 3, v 4, v 5]) ![v 0, v 1, v 2]

/-- Modelled from the spec: the coupled SE3 exponential map `lie_groups.exp_map_SE3`
on one row: same rotation, translation coupled through the rotation differential
`V = I + B K + C K^2`, the near-zero branch of the coefficients taken exactly at
zero angle. -/
noncomputable def exp_map_SE3 (v : Vec6) : Mat34 :=
  let w : Fin 3 → ℝ := ![v 3, v 4, v 5]
  let tsq := w 0 ^ 2 + w 1 ^ 2 + w 2 ^ 2
  let B := if tsq = 0 then 1 / 2 else (1 - Real.cos (Real.sqrt tsq)) / tsq
  let C := if tsq = 0 then 1 / 6
    else (Real.sqrt tsq - Real.sin (Real.sqrt tsq)) / (tsq * Real.sqrt tsq)
  let V := 1 + B • skew w + C • (skew w * skew w)
  mat34 (so3Exp w) (V.mulVec ![v 0, v 1, v 2])

/-- Modelled from the spec: composition of two 3x4 rigid transforms
(`nerfstudio/utils/poses.py` `multiply`, not among this repository's source files):
rotation product, translation `R1 t2 + t1`. -/
noncomputable def comp34 (a b : Mat34) : Mat34 :=
  mat34 (rotOf a * rotOf b) ((rotOf a).mulVec (transOf b) + transOf a)

/-- Batched pose composition, used by the `functools.reduce` over `outputs`. -/
noncomputable def multiplyBatch (a b : List Mat34) : List Mat34 :=
  List.zipWith comp34 a b

/-- The camera optimizer module state (`CameraOptimizer`): post-construction
configuration, camera count, the optional non-trainable index set, the parameter
block (absent in mode off), and the derived boolean filter. -/
structure CameraOptimizer where
  config : CameraOptimizerConfig
  num_cameras : ℕ
  non_trainable_camera_indices : Option (List ℕ)
  pose_adjustment : Option (List Vec6)
  non_trainable_camera_filter : Option (List Bool)
  suffix : String

/-- Construction (`CameraOptimizer.__init__`): coerce the mode to off when
`penalty_scale < 0`, allocate the zero parameter block per mode (none in mode off),
and derive the per-camera boolean filter from the given index set. -/
noncomputable def CameraOptimizer.init (config : CameraOptimizerConfig)
    (num_cameras : ℕ) (non_trainable : Option (List ℕ)) (sfx : String) :
    CameraOptimizer :=
  let mode := if config.penalty_scale < 0 then Mode.off else config.mode
  { config := { config with mode := mode }
    num_cameras := num_cameras
    non_trainable_camera_indices := non_trainable
    pose_adjustment :=
      match mode with
      | Mode.off => none
      | Mode.SO3xR3 => some (List.replicate num_cameras vzero)
      | Mode.SE3 => some (List.replicate num_cameras vzero)
      | Mode.shared_SO3xR3 => some [vzero]
    non_trainable_camera_filter :=
      non_trainable.map (fun s => (List.range num_cameras).map (fun i => decide (i ∈ s)))
    suffix := sfx }

/-- The external optimizer's gradient step, as seen by this component: the parameter
block's values are replaced (shape preserved by the hypotheses of the theorems
using it); nothing else of the state changes. -/
def CameraOptimizer.setParams (opt : CameraOptimizer) (params : List Vec6) :
    CameraOptimizer :=
  { opt with pose_adjustment := some params }

/-- Forward pass (`CameraOptimizer.forward` / `computeCorrections`): per-mode Lie-map
step, then the non-trainable overwrite, then the identity fallback or the reduce.
`none` models a raised exception (a missing attribute or an out-of-range index). -/
noncomputable def CameraOptimizer.forward (opt : CameraOptimizer)
    (indices : List ℕ) : Option (List Mat34) := do
  let base : List (List Mat34) ←
    match opt.config.mode with
    | Mode.off => pure []
    | Mode.SO3xR3 => do
        let pa ← opt.pose_adjustment
        let rows ← indices.mapM fun i => pa[i]?
        pure [rows.map exp_map_SO3xR3]
    | Mode.SE3 => do
        let pa ← opt.pose_adjustment
        let rows ← indices.mapM fun i => pa[i]?
        pure [rows.map exp_map_SE3]
    | Mode.shared_SO3xR3 => do
        let pa ← opt.pose_adjustment
        pure [(List.replicate indices.length (pa.map exp_map_SO3xR3)).flatten]
  let outputs : List (List Mat34) ←
    match opt.non_trainable_camera_indices with
    | none => pure base
    | some _ => do
        let _ ← opt.pose_adjustment
        let filt ← opt.non_trainable_camera_filter
        let bits ← indices.mapM fun i => filt[i]?
        let first ← base.head?
        pure [List.zipWith (fun b m => if b then identity34 else m) bits first]
  match outputs with
  | [] => pure (List.replicate indices.length identity34)
  | o :: rest => pure (rest.foldl multiplyBatch o)

/-- Modelled from the spec: the ray-batch container interface (`RayBundle`): per-ray
origins, per-ray directions, and per-ray integer camera indices carried with a
trailing singleton dimension. -/
structure RayBundle where
  origins : List (Fin 3 → ℝ)
  directions : List (Fin 3 → ℝ)
  camera_indices : List (List ℕ)

/-- The `squeeze()` of the index tensor: collapse the trailing singleton dimension
(each per-ray index list holds exactly one entry). -/
def squeezeIndices (l : List (List ℕ)) : List ℕ := l.flatten

/-- `apply_to_raybundle`: a no-op in mode off; otherwise compute corrections for the
squeezed camera indices, add the translation column to each origin and apply the
rotation block to each direction.  Returns the post-state of the mutated bundle;
`none` models an exception raised by the forward pass. -/
noncomputable def CameraOptimizer.apply_to_raybundle (opt : CameraOptimizer)
    (rb : RayBundle) : Option RayBundle :=
  if opt.config.mode = Mode.off then some rb
  else do
    let cm ← opt.forward (squeezeIndices rb.camera_indices)
    pure { rb with
      origins := List.zipWith (fun o m => o + transOf m) rb.origins cm
      directions := List.zipWith (fun d m => (rotOf m).mulVec d) rb.directions cm }

/-- Modelled from the spec: the camera container interface (`Cameras`): an optional
metadata map from string keys to integer camera ids, and a batched camera-to-world
transform of 3x4 matrices. -/
structure Cameras where
  metadata : Option (List (String × ℕ))
  camera_to_worlds : List Mat34

/-- Promote a 3x4 transform to a homogeneous 4x4 by appending the row `[0, 0, 0, 1]`
(the `torch.cat` in `apply_to_camera`). -/
def toHomogeneous (m : Mat34) : Mat44 :=
  fun i j => if h : (i : ℕ) < 3 then m ⟨i, h⟩ j else if (j : ℕ) = 3 then 1 else 0

/-- Product of a 3x4 matrix by a 4x4 matrix
(one batch element of `torch.bmm(camera_to_worlds, adj)`). -/
noncomputable def mulMat34x44 (a : Mat34) (b : Mat44) : Mat34 :=
  fun i j => Finset.univ.sum (fun k : Fin 4 => a i k * b k j)

/-- `apply_to_camera`: a no-op in mode off; otherwise assert that metadata exists and
holds the camera id under `cam_idx`, compute one correction, promote it to 4x4 and
right-multiply it onto the camera-to-world transforms.  `Except.error c` models an
assertion raised with the camera still in state `c` (the asserts precede every
mutation in the source). -/
noncomputable def CameraOptimizer.apply_to_camera (opt : CameraOptimizer)
    (camera : Cameras) : Except Cameras Cameras :=
  if opt.config.mode = Mode.off then Except.ok camera
  else
    match camera.metadata with
    | none => Except.error camera
    | some md =>
      match md.lookup "cam_idx" with
      | none => Except.error camera
      | some camera_idx =>
        match opt.forward [camera_idx] with
        | none => Except.error camera
        | some adjs =>
          Except.ok { camera with
            camera_to_worlds :=
              List.zipWith (fun c2w adj => mulMat34x44 c2w (toHomogeneous adj))
                camera.camera_to_worlds adjs }

/-- Mean of a list of reals (`Tensor.mean` over the row dimension). -/
noncomputable def meanR (l : List ℝ) : ℝ := l.sum / l.length

/-- L2 norm of the translation half of a row (`pose_adjustment[:, :3].norm(dim=-1)`). -/
noncomputable def transNorm (v : Vec6) : ℝ := Real.sqrt (v 0 ^ 2 + v 1 ^ 2 + v 2 ^ 2)

/-- L2 norm of the rotation half of a row (`pose_adjustment[:, 3:].norm(dim=-1)`). -/
noncomputable def rotNorm (v : Vec6) : ℝ := Real.sqrt (v 3 ^ 2 + v 4 ^ 2 + v 5 ^ 2)

/-- The regularization scalar added by `get_loss_dict`: mean translation norm times
its penalty plus mean rotation norm times its penalty, scaled by `penalty_scale`. -/
noncomputable def regTerm (cfg : CameraOptimizerConfig) (pa : List Vec6) : ℝ :=
  (meanR (pa.map transNorm) * cfg.trans_l2_penalty
    + meanR (pa.map rotNorm) * cfg.rot_l2_penalty) * cfg.penalty_scale

/-- `get_loss_dict`: adds nothing in mode off, otherwise appends the regularization
scalar under the fixed key `camera_opt_regularizer` followed by the suffix. -/
noncomputable def CameraOptimizer.get_loss_dict (opt : CameraOptimizer)
    (loss_dict : List (String × ℝ)) : Option (List (String × ℝ)) :=
  if opt.config.mode = Mode.off then some loss_dict
  else do
    let pa ← opt.pose_adjustment
    pure (loss_dict ++
      [(String.append "camera_opt_regularizer" opt.suffix, regTerm opt.config pa)])

/-- The mask bit the derived filter holds for camera `i`: membership of `i` in the
non-trainable index set, false when no set was given. -/
def maskBit (nt : Option (List ℕ)) (i : ℕ) : Bool :=
  match nt with
  | none => false
  | some s => decide (i ∈ s)

/-- The pre-mask correction row the forward pass computes for camera `i`:
per-camera gather for modes SO3xR3 and SE3, the single shared row for the
shared mode, identity in mode off. -/
noncomputable def corrRow (mode : Mode) (params : List Vec6) (i : ℕ) : Mat34 :=
  match mode with
  | Mode.off => identity34
  | Mode.SO3xR3 => exp_map_SO3xR3 (params.getD i vzero)
  | Mode.SE3 => exp_map_SE3 (params.getD i vzero)
  | Mode.shared_SO3xR3 => exp_map_SO3xR3 (params.getD 0 vzero)

/-! Helper lemmas about list indexing, used to evaluate the tensor gathers. -/

theorem getD_of_lt {α : Type} (l : List α) (n : ℕ) (d : α) (h : n < l.length) :
    l.getD n d = l[n] := by
  simp [List.getD_eq_getElem?_getD, List.getElem?_eq_getElem h]

theorem mapM_getD {α : Type} (l : List α) (d : α) :
    ∀ idx : List ℕ, (∀ i ∈ idx, i < l.length) →
      idx.mapM (fun i => l[i]?) = some (idx.map (fun i => l.getD i d)) := by
  intro idx
  induction idx with
  | nil => intro _; rfl
  | cons a t ih =>
      intro h
      have ha : a < l.length := h a (List.mem_cons_self a t)
      have ht := ih (fun i hi => h i (List.mem_cons_of_mem a hi))
      rw [List.mapM_cons, ht, List.getElem?_eq_getElem ha]
      show some (l[a] :: List.map (fun i => l.getD i d) t) = _
      rw [List.map_cons, getD_of_lt l a d ha]

theorem zipWith_map_same {α β γ δ : Type} (f : β → γ → δ) (g : α → β) (h : α → γ)
    (l : List α) :
    List.zipWith f (l.map g) (l.map h) = l.map (fun x => f (g x) (h x)) := by
  induction l with
  | nil => rfl
  | cons a t ih => simp [ih]

theorem getD_map_range {β : Type} (f : ℕ → β) (n i : ℕ) (d : β) (h : i < n) :
    ((List.range n).map f).getD i d = f i := by
  rw [getD_of_lt _ _ _ (by simpa using h)]
  simp

theorem getD_map_of_lt {α β : Type} (f : α → β) (l : List α) (p : ℕ)
    (hp : p < l.length) (d : β) (a : α) :
    (l.map f).getD p d = f (l.getD p a) := by
  rw [getD_of_lt _ _ _ (by simpa using hp), getD_of_lt _ _ _ hp]
  simp

theorem getD_replicate_self {α : Type} (n i : ℕ) (a : α) :
    (List.replicate n a).getD i a = a := by
  by_cases h : i < n
  · rw [getD_of_lt _ _ _ (by simpa using h)]
    simp
  · have hge : (List.replicate n a).length ≤ i := by
      simpa using Nat.le_of_not_lt h
    simp [List.getD_eq_getElem?_getD, List.getElem?_eq_none hge]

theorem flatten_replicate_singleton {α : Type} (n : ℕ) (x : α) :
    (List.replicate n [x]).flatten = List.replicate n x := by
  induction n with
  | zero => rfl
  | succ k ih => simp [List.replicate_succ, ih]

theorem getD_zipWith_of_lt {α β γ : Type} (f : α → β → γ) (l1 : List α) (l2 : List β)
    (p : ℕ) (h1 : p < l1.length) (h2 : p < l2.length) (dc : γ) (da : α) (db : β) :
    (List.zipWith f l1 l2).getD p dc = f (l1.getD p da) (l2.getD p db) := by
  rw [getD_of_lt _ _ _ (by simp [List.length_zipWith]; omega),
    getD_of_lt _ _ _ h1, getD_of_lt _ _ _ h2]
  simp

/-! Zero-angle facts about the modelled Lie maps. -/

theorem vec3_zero_eq : (![(0 : ℝ), 0, 0]) = (0 : Fin 3 → ℝ) := by
  funext i
  fin_cases i <;> rfl

theorem skew_zero_vec : skew ![(0 : ℝ), 0, 0] = 0 := by
  ext i j
  fin_cases i <;> fin_cases j <;>
    simp [skew, Matrix.vecHead, Matrix.vecTail]

theorem so3Exp_zero_vec : so3Exp ![(0 : ℝ), 0, 0] = 1 := by
  unfold so3Exp
  rw [skew_zero_vec]
  norm_num [Matrix.vecHead, Matrix.vecTail]

theorem mat34_one_zero : mat34 1 (0 : Fin 3 → ℝ) = identity34 := by
  funext i j
  fin_cases i <;> fin_cases j <;>
    simp [mat34, identity34, Matrix.one_apply]

theorem exp_map_SO3xR3_zero : exp_map_SO3xR3 vzero = identity34 := by
  unfold exp_map_SO3xR3
  rw [show (![vzero 3, vzero 4, vzero 5]) = ![(0 : ℝ), 0, 0] from rfl,
    show (![vzero 0, vzero 1, vzero 2]) = ![(0 : ℝ), 0, 0] from rfl,
    so3Exp_zero_vec, vec3_zero_eq, mat34_one_zero]

theorem exp_map_SE3_zero : exp_map_SE3 vzero = identity34 := by
  unfold exp_map_SE3
  rw [show (![vzero 3, vzero 4, vzero 5]) = ![(0 : ℝ), 0, 0] from rfl,
    show (![vzero 0, vzero 1, vzero 2]) = ![(0 : ℝ), 0, 0] from rfl]
  simp only [skew_zero_vec, so3Exp_zero_vec, smul_zero, mul_zero, zero_mul, add_zero]
  rw [Matrix.one_mulVec, vec3_zero_eq, mat34_one_zero]

/-! Facts about the constructed state. -/

theorem init_num_cameras (cfg : CameraOptimizerConfig) (n : ℕ)
    (nt : Option (List ℕ)) (sfx : String) :
    (CameraOptimizer.init cfg n nt sfx).num_cameras = n := rfl

theorem init_nt (cfg : CameraOptimizerConfig) (n : ℕ)
    (nt : Option (List ℕ)) (sfx : String) :
    (CameraOptimizer.init cfg n nt sfx).non_trainable_camera_indices = nt := rfl

theorem init_filter (cfg : CameraOptimizerConfig) (n : ℕ)
    (nt : Option (List ℕ)) (sfx : String) :
    (CameraOptimizer.init cfg n nt sfx).non_trainable_camera_filter =
      nt.map (fun s => (List.range n).map (fun i => decide (i ∈ s))) := rfl

theorem init_mode_eq (cfg : CameraOptimizerConfig) (n : ℕ)
    (nt : Option (List ℕ)) (sfx : String) :
    (CameraOptimizer.init cfg n nt sfx).config.mode =
      if cfg.penalty_scale < 0 then Mode.off else cfg.mode := rfl

theorem init_mode_of_nonneg (cfg : CameraOptimizerConfig) (n : ℕ)
    (nt : Option (List ℕ)) (sfx : String) (h : 0 ≤ cfg.penalty_scale) :
    (CameraOptimizer.init cfg n nt sfx).config.mode = cfg.mode := by
  rw [init_mode_eq, if_neg (not_lt.mpr h)]

theorem init_pa_eq (cfg : CameraOptimizerConfig) (n : ℕ)
    (nt : Option (List ℕ)) (sfx : String) :
    (CameraOptimizer.init cfg n nt sfx).pose_adjustment =
      match (if cfg.penalty_scale < 0 then Mode.off else cfg.mode) with
      | Mode.off => none
      | Mode.SO3xR3 => some (List.replicate n vzero)
      | Mode.SE3 => some (List.replicate n vzero)
      | Mode.shared_SO3xR3 => some [vzero] := rfl

theorem setParams_config (opt : CameraOptimizer) (p : List Vec6) :
    (opt.setParams p).config = opt.config := rfl

theorem setParams_fields (opt : CameraOptimizer) (p : List Vec6) :
    (opt.setParams p).pose_adjustment = some p ∧
    (opt.setParams p).non_trainable_camera_indices = opt.non_trainable_camera_indices ∧
    (opt.setParams p).non_trainable_camera_filter = opt.non_trainable_camera_filter ∧
    (opt.setParams p).num_cameras = opt.num_cameras := ⟨rfl, rfl, rfl, rfl⟩

/-- The shape of the parameter block the forward pass expects for a mode:
one row for the shared mode, one row per camera otherwise. -/
def paramLen (mode : Mode) (n : ℕ) : ℕ :=
  if mode = Mode.shared_SO3xR3 then 1 else n

theorem zipWith_replicate_right {α β γ : Type} (f : α → β → γ) (l : List α) (x : β) :
    List.zipWith f l (List.replicate l.length x) = l.map (fun a => f a x) := by
  induction l with
  | nil => rfl
  | cons a t ih => simp [List.replicate_succ, ih]

theorem zipWith_map_right_same {α β γ : Type} (f : α → β → γ) (h : α → β)
    (l : List α) :
    List.zipWith f l (l.map h) = l.map (fun x => f x (h x)) := by
  induction l with
  | nil => rfl
  | cons a t ih => simp [ih]

set_option maxRecDepth 8000 in
/-- Evaluation of the forward pass on a constructed instance whose parameter values
were replaced by the external optimizer: for a non-off mode, a parameter block of
the mode's shape and in-range indices, the output is per batch position the Lie-map
correction of its camera index, overwritten with the identity where the
non-trainable mask bit is set. -/
theorem forward_constructed (cfg : CameraOptimizerConfig) (n : ℕ)
    (nt : Option (List ℕ)) (sfx : String) (params : List Vec6) (indices : List ℕ)
    (hps : 0 ≤ cfg.penalty_scale) (hmode : cfg.mode ≠ Mode.off)
    (hlen : params.length = paramLen cfg.mode n)
    (hidx : ∀ i ∈ indices, i < n) :
    ((CameraOptimizer.init cfg n nt sfx).setParams params).forward indices =
      some (indices.map (fun i =>
        if maskBit nt i then identity34 else corrRow cfg.mode params i)) := by
  have hlt : ¬(cfg.penalty_scale < 0) := not_lt.mpr hps
  cases hc : cfg.mode with
  | off => exact absurd hc hmode
  | SO3xR3 =>
      have hlen' : params.length = n := by simpa [paramLen, hc] using hlen
      have hmap := mapM_getD params vzero indices (by simpa [hlen'] using hidx)
      simp at hmap
      cases nt with
      | none =>
          simp [CameraOptimizer.forward, CameraOptimizer.setParams,
            CameraOptimizer.init, hc, hlt, hmap, maskBit, corrRow, List.map_map,
            Function.comp]
      | some S =>
          have hbits := mapM_getD ((List.range n).map (fun i => decide (i ∈ S)))
            false indices (by simpa using hidx)
          simp at hbits
          simp [CameraOptimizer.forward, CameraOptimizer.setParams,
            CameraOptimizer.init, hc, hlt, hmap, hbits, List.map_map,
            Function.comp, zipWith_map_same, maskBit, corrRow]
          rw [zipWith_map_right_same]
          apply List.map_congr_left
          intro i hi
          simp [List.getElem?_range, hidx i hi]
  | SE3 =>
      have hlen' : params.length = n := by simpa [paramLen, hc] using hlen
      have hmap := mapM_getD params vzero indices (by simpa [hlen'] using hidx)
      simp at hmap
      cases nt with
      | none =>
          simp [CameraOptimizer.forward, CameraOptimizer.setParams,
            CameraOptimizer.init, hc, hlt, hmap, maskBit, corrRow, List.map_map,
            Function.comp]
      | some S =>
          have hbits := mapM_getD ((List.range n).map (fun i => decide (i ∈ S)))
            false indices (by simpa using hidx)
          simp at hbits
          simp [CameraOptimizer.forward, CameraOptimizer.setParams,
            CameraOptimizer.init, hc, hlt, hmap, hbits, List.map_map,
            Function.comp, zipWith_map_same, maskBit, corrRow]
          rw [zipWith_map_right_same]
          apply List.map_congr_left
          intro i hi
          simp [List.getElem?_range, hidx i hi]
  | shared_SO3xR3 =>
      have hlen' : params.length = 1 := by simpa [paramLen, hc] using hlen
      obtain ⟨v, hv⟩ := List.length_eq_one.mp hlen'
      subst hv
      cases nt with
      | none =>
          simp only [CameraOptimizer.forward, CameraOptimizer.setParams,
            CameraOptimizer.init]
          simp [hc, hlt, flatten_replicate_singleton, maskBit, corrRow,
            List.map_const']
      | some S =>
          have hbits := mapM_getD ((List.range n).map (fun i => decide (i ∈ S)))
            false indices (by simpa using hidx)
          simp at hbits
          simp only [CameraOptimizer.forward, CameraOptimizer.setParams,
            CameraOptimizer.init]
          simp [hc, hlt, hbits, flatten_replicate_singleton, maskBit, corrRow]
          rw [List.zipWith_map_left, zipWith_replicate_right]
          apply List.map_congr_left
          intro i hi
          simp [List.getElem?_range, hidx i hi]

/-- Mode off with no non-trainable set: the forward pass takes the identity
fallback and tiles the 3x4 identity over the batch. -/
theorem forward_off_noMask (opt : CameraOptimizer) (indices : List ℕ)
    (hmode : opt.config.mode = Mode.off)
    (hnt : opt.non_trainable_camera_indices = none) :
    opt.forward indices = some (List.replicate indices.length identity34) := by
  simp [CameraOptimizer.forward, hmode, hnt]

/-- Replacing the parameter block with its own current value changes nothing. -/
theorem setParams_self (opt : CameraOptimizer) (p : List Vec6)
    (h : opt.pose_adjustment = some p) : opt.setParams p = opt := by
  cases opt with
  | mk c n nt pa f sfx =>
      simp only [CameraOptimizer.setParams]
      simp only at h
      rw [h]

/-- C1: the claim states that every mode-off instance, also one constructed with a
non-empty non-trainable index set, returns identity corrections for any batch.  The
code violates this: with mode off and a non-trainable set, `forward` reads
`self.pose_adjustment`, which mode off never allocates, and then `outputs[0]` of an
empty list; the call raises instead of returning identities.  This theorem
evaluates the model at the failing input: the result is `none` (a raised
exception), not an identity batch. -/
theorem C1_offWithMask_raises :
    (CameraOptimizer.init ⟨Mode.off, 1 / 100, 1 / 1000, 1⟩ 1 (some [0]) "").forward [0]
      = none := by
  norm_num [CameraOptimizer.forward, CameraOptimizer.init]

/-- C4: the claim states that `computeCorrections` never raises on any constructed
instance with in-range indices.  A mode-off instance carrying a non-trainable set
(here obtained through the negative penalty-scale coercion) makes the forward pass
raise on the unallocated parameter attribute; the model returns `none` at this
in-range input. -/
theorem C4_constructed_forward_raises :
    (CameraOptimizer.init ⟨Mode.SO3xR3, 1 / 100, 1 / 1000, -1⟩ 2 (some [1]) "").forward [0]
      = none := by
  norm_num [CameraOptimizer.forward, CameraOptimizer.init]

/-- C5: on a freshly constructed instance of any non-off mode (parameters are the
zero block) and in-range indices, the forward pass returns the exact 3x4 identity
at every batch position, through the exact zero-angle branch of both Lie maps. -/
theorem C5_zeroParams_identity (cfg : CameraOptimizerConfig) (n : ℕ)
    (nt : Option (List ℕ)) (sfx : String) (indices : List ℕ)
    (hps : 0 ≤ cfg.penalty_scale) (hmode : cfg.mode ≠ Mode.off)
    (hidx : ∀ i ∈ indices, i < n) :
    (CameraOptimizer.init cfg n nt sfx).forward indices =
      some (List.replicate indices.length identity34) := by
  have hpa : (CameraOptimizer.init cfg n nt sfx).pose_adjustment =
      some (List.replicate (paramLen cfg.mode n) vzero) := by
    rw [init_pa_eq, if_neg (not_lt.mpr hps)]
    cases hc : cfg.mode with
    | off => exact absurd hc hmode
    | SO3xR3 => simp [paramLen]
    | SE3 => simp [paramLen]
    | shared_SO3xR3 => simp [paramLen]
  rw [← setParams_self (CameraOptimizer.init cfg n nt sfx) _ hpa,
    forward_constructed cfg n nt sfx _ indices hps hmode (by simp) hidx]
  refine congrArg some ?_
  have hrow : ∀ i ∈ indices,
      (if maskBit nt i then identity34
        else corrRow cfg.mode (List.replicate (paramLen cfg.mode n) vzero) i) =
      identity34 := by
    intro i _
    have hcr : corrRow cfg.mode (List.replicate (paramLen cfg.mode n) vzero) i =
        identity34 := by
      cases cfg.mode <;>
        simp [corrRow, getD_replicate_self, exp_map_SO3xR3_zero, exp_map_SE3_zero]
    rw [hcr, ite_self]
  rw [List.map_congr_left hrow]
  exact List.map_const' _ _

/-- Witness for C5 at a concrete instance: mode SE3, two cameras, camera 0
non-trainable, batch [0, 1]. -/
theorem C5_witness :
    (CameraOptimizer.init ⟨Mode.SE3, 1 / 100, 1 / 1000, 1⟩ 2 (some [0]) "").forward [0, 1]
      = some (List.replicate 2 identity34) :=
  C5_zeroParams_identity ⟨Mode.SE3, 1 / 100, 1 / 1000, 1⟩ 2 (some [0]) "" [0, 1]
    (by norm_num) (by decide) (by decide)

/-- A parameter row with unit x-translation and zero rotation: a non-zero row whose
Lie-map image is computable exactly (the rotation angle is zero). -/
noncomputable def vtx : Vec6 := fun j => if j = 0 then 1 else 0

theorem vtx_ne_vzero : vtx ≠ vzero := by
  intro h
  have h0 := congrFun h 0
  simp [vtx, vzero] at h0

theorem exp_map_SO3xR3_vtx_entry : exp_map_SO3xR3 vtx 0 3 = 1 := by
  have h3 : ¬(((3 : Fin 4) : ℕ) < 3) := by decide
  simp only [exp_map_SO3xR3, mat34, dif_neg h3]
  norm_num [vtx]

theorem identity34_entry_03 : identity34 0 3 = 0 := by
  have hne : ¬(((0 : Fin 3) : ℕ) = ((3 : Fin 4) : ℕ)) := by decide
  simp only [identity34, if_neg hne]

theorem exp_map_SO3xR3_vtx_ne_identity : identity34 ≠ exp_map_SO3xR3 vtx := by
  intro h
  have h03 := congrFun (congrFun h 0) 3
  rw [exp_map_SO3xR3_vtx_entry, identity34_entry_03] at h03
  exact zero_ne_one h03

/-- C2: on an instance constructed with a non-trainable index set, mode not off and
any parameter values of the mode's shape, every batch position whose camera index
is in the set receives the exact identity, and every other position keeps its
Lie-map correction row (the overwrite is a post-filter on the Lie-map output). -/
theorem C2_nonTrainable_identity_override (cfg : CameraOptimizerConfig) (n : ℕ)
    (S : List ℕ) (sfx : String) (params : List Vec6) (indices : List ℕ)
    (out : List Mat34)
    (hps : 0 ≤ cfg.penalty_scale) (hmode : cfg.mode ≠ Mode.off)
    (hlen : params.length = paramLen cfg.mode n)
    (hidx : ∀ i ∈ indices, i < n)
    (hout : ((CameraOptimizer.init cfg n (some S) sfx).setParams params).forward
      indices = some out) :
    out.length = indices.length ∧
    ∀ p, p < indices.length →
      (indices.getD p 0 ∈ S → out.getD p identity34 = identity34) ∧
      (indices.getD p 0 ∉ S →
        out.getD p identity34 = corrRow cfg.mode params (indices.getD p 0)) := by
  rw [forward_constructed cfg n (some S) sfx params indices hps hmode hlen hidx] at hout
  have hout2 : out = indices.map (fun i =>
      if maskBit (some S) i then identity34 else corrRow cfg.mode params i) :=
    (Option.some.inj hout).symm
  constructor
  · rw [hout2]; simp
  · intro p hp
    have hgd : out.getD p identity34 =
        (if maskBit (some S) (indices.getD p 0) then identity34
          else corrRow cfg.mode params (indices.getD p 0)) := by
      rw [hout2]
      exact getD_map_of_lt _ indices p hp identity34 0
    constructor
    · intro hmem
      have hbit : maskBit (some S) (indices.getD p 0) = true := by
        simp only [maskBit, decide_eq_true_eq]
        exact hmem
      rw [hgd, if_pos hbit]
    · intro hmem
      have hbit : ¬(maskBit (some S) (indices.getD p 0) = true) := by
        simp only [maskBit, decide_eq_true_eq]
        exact hmem
      rw [hgd, if_neg hbit]

/-- The forward output of the C2 witness instance: mode SO3xR3, three cameras with
non-zero parameter rows, camera 1 non-trainable, batch [0, 1, 2]. -/
noncomputable def outC2 : List Mat34 :=
  [0, 1, 2].map (fun i => if maskBit (some [1]) i then identity34
    else corrRow Mode.SO3xR3 [vtx, vtx, vtx] i)

/-- Witness for C2: camera 1 (non-trainable) receives the identity although its
parameter row is non-zero; camera 0 keeps its Lie-map correction. -/
theorem C2_witness :
    outC2.getD 1 identity34 = identity34 ∧
    outC2.getD 0 identity34 = corrRow Mode.SO3xR3 [vtx, vtx, vtx] 0 := by
  have h := C2_nonTrainable_identity_override ⟨Mode.SO3xR3, 1 / 100, 1 / 1000, 1⟩ 3 [1] ""
    [vtx, vtx, vtx] [0, 1, 2] outC2 (by norm_num) (by decide) (by simp [paramLen])
    (by decide)
    (forward_constructed ⟨Mode.SO3xR3, 1 / 100, 1 / 1000, 1⟩ 3 (some [1]) ""
      [vtx, vtx, vtx] [0, 1, 2] (by norm_num) (by decide) (by simp [paramLen]) (by decide))
  exact ⟨(h.2 1 (by norm_num)).1 (by decide), (h.2 0 (by norm_num)).2 (by decide)⟩

/-- The forward output of the shared-mode instance used against C3: two cameras,
camera 0 non-trainable, the single shared row non-zero, batch [0, 1]. -/
noncomputable def sharedMaskOut : List Mat34 :=
  [0, 1].map (fun i => if maskBit (some [0]) i then identity34
    else corrRow Mode.shared_SO3xR3 [vtx] i)

/-- C3 counterexample: the claim asserts that every shared-mode instance returns
identical matrices at any two batch positions.  An instance constructed with a
non-trainable set breaks this: position 0 (camera 0, masked) is the identity while
position 1 carries the non-zero shared correction. -/
theorem C3_counterexample :
    ((CameraOptimizer.init ⟨Mode.shared_SO3xR3, 1 / 100, 1 / 1000, 1⟩ 2 (some [0]) "").setParams
      [vtx]).forward [0, 1] = some sharedMaskOut ∧
    sharedMaskOut.getD 0 identity34 ≠ sharedMaskOut.getD 1 identity34 := by
  constructor
  · exact forward_constructed ⟨Mode.shared_SO3xR3, 1 / 100, 1 / 1000, 1⟩ 2 (some [0]) ""
      [vtx] [0, 1] (by norm_num) (by decide) (by simp [paramLen]) (by decide)
  · have hget : sharedMaskOut = [identity34, exp_map_SO3xR3 vtx] := by
      simp [sharedMaskOut, maskBit, corrRow]
    rw [hget]
    simpa using exp_map_SO3xR3_vtx_ne_identity

/-- C3 (amended): on a shared-mode instance constructed without a non-trainable
index set, any values of the single shared row and in-range indices, any two batch
positions of the forward output hold the same 3x4 matrix. -/
theorem C3_shared_rows_identical (cfg : CameraOptimizerConfig) (n : ℕ) (sfx : String)
    (params : List Vec6) (indices : List ℕ) (out : List Mat34) (p q : ℕ)
    (hps : 0 ≤ cfg.penalty_scale) (hshared : cfg.mode = Mode.shared_SO3xR3)
    (hlen : params.length = 1) (hidx : ∀ i ∈ indices, i < n)
    (hp : p < indices.length) (hq : q < indices.length)
    (hout : ((CameraOptimizer.init cfg n none sfx).setParams params).forward indices
      = some out) :
    out.getD p identity34 = out.getD q identity34 := by
  rw [forward_constructed cfg n none sfx params indices hps (by simp [hshared])
    (by simp [paramLen, hshared, hlen]) hidx] at hout
  have hout2 := (Option.some.inj hout).symm
  rw [hout2, getD_map_of_lt _ indices p hp identity34 0,
    getD_map_of_lt _ indices q hq identity34 0]
  simp [maskBit, corrRow, hshared]

/-- The forward output of the C3 witness instance: shared mode, no non-trainable
set, non-zero shared row, batch [0, 1]. -/
noncomputable def outC3 : List Mat34 :=
  [0, 1].map (fun i => if maskBit none i then identity34
    else corrRow Mode.shared_SO3xR3 [vtx] i)

/-- Witness for the amended C3 at a concrete instance. -/
theorem C3_witness : outC3.getD 0 identity34 = outC3.getD 1 identity34 :=
  C3_shared_rows_identical ⟨Mode.shared_SO3xR3, 1 / 100, 1 / 1000, 1⟩ 2 "" [vtx]
    [0, 1] outC3 0 1 (by norm_num) rfl rfl (by decide) (by norm_num) (by norm_num)
    (forward_constructed ⟨Mode.shared_SO3xR3, 1 / 100, 1 / 1000, 1⟩ 2 none "" [vtx]
      [0, 1] (by norm_num) (by decide) (by simp [paramLen]) (by decide))

/-- C10: in the per-camera modes, the forward output row at a batch position is a
function of the camera index there: duplicate indices receive equal rows, whatever
the parameter values and the non-trainable configuration. -/
theorem C10_perCamera_duplicates_equal (cfg : CameraOptimizerConfig) (n : ℕ)
    (nt : Option (List ℕ)) (sfx : String) (params : List Vec6) (indices : List ℕ)
    (out : List Mat34) (p q : ℕ)
    (hps : 0 ≤ cfg.penalty_scale)
    (hmode : cfg.mode = Mode.SO3xR3 ∨ cfg.mode = Mode.SE3)
    (hlen : params.length = paramLen cfg.mode n)
    (hidx : ∀ i ∈ indices, i < n)
    (hp : p < indices.length) (hq : q < indices.length)
    (hdup : indices.getD p 0 = indices.getD q 0)
    (hout : ((CameraOptimizer.init cfg n nt sfx).setParams params).forward indices
      = some out) :
    out.getD p identity34 = out.getD q identity34 := by
  have hm : cfg.mode ≠ Mode.off := by
    rcases hmode with h | h <;> simp [h]
  rw [forward_constructed cfg n nt sfx params indices hps hm hlen hidx] at hout
  have hout2 := (Option.some.inj hout).symm
  rw [hout2, getD_map_of_lt _ indices p hp identity34 0,
    getD_map_of_lt _ indices q hq identity34 0, hdup]

/-- The forward output of the C10 witness instance: mode SO3xR3, one camera with a
non-zero row, duplicate batch [0, 0]. -/
noncomputable def outC10 : List Mat34 :=
  [0, 0].map (fun i => if maskBit none i then identity34
    else corrRow Mode.SO3xR3 [vtx] i)

/-- Witness for C10: the two duplicate positions hold equal rows. -/
theorem C10_witness : outC10.getD 0 identity34 = outC10.getD 1 identity34 :=
  C10_perCamera_duplicates_equal ⟨Mode.SO3xR3, 1 / 100, 1 / 1000, 1⟩ 1 none "" [vtx]
    [0, 0] outC10 0 1 (by norm_num) (Or.inl rfl) (by simp [paramLen]) (by decide)
    (by norm_num) (by norm_num) rfl
    (forward_constructed ⟨Mode.SO3xR3, 1 / 100, 1 / 1000, 1⟩ 1 none "" [vtx] [0, 0]
      (by norm_num) (by decide) (by simp [paramLen]) (by decide))

/-- C6: a negative penalty-scale silently coerces the mode to off at construction
and no parameter block is allocated; a non-negative penalty-scale keeps the
configured mode; and no operation of the component changes the configuration after
construction (the external parameter update leaves it untouched). -/
theorem C6_penalty_coercion (cfg : CameraOptimizerConfig) (n : ℕ)
    (nt : Option (List ℕ)) (sfx : String) (params : List Vec6) :
    (cfg.penalty_scale < 0 →
      (CameraOptimizer.init cfg n nt sfx).config.mode = Mode.off ∧
      (CameraOptimizer.init cfg n nt sfx).pose_adjustment = none) ∧
    (0 ≤ cfg.penalty_scale →
      (CameraOptimizer.init cfg n nt sfx).config.mode = cfg.mode) ∧
    ((CameraOptimizer.init cfg n nt sfx).setParams params).config =
      (CameraOptimizer.init cfg n nt sfx).config := by
  refine ⟨fun h => ⟨?_, ?_⟩, fun h => init_mode_of_nonneg cfg n nt sfx h, rfl⟩
  · rw [init_mode_eq, if_pos h]
  · rw [init_pa_eq, if_pos h]

/-- Witness for C6 at a concrete negative penalty-scale. -/
theorem C6_witness :
    (CameraOptimizer.init ⟨Mode.SO3xR3, 1 / 100, 1 / 1000, -1⟩ 2 none "").config.mode
      = Mode.off ∧
    (CameraOptimizer.init ⟨Mode.SO3xR3, 1 / 100, 1 / 1000, -1⟩ 2 none "").pose_adjustment
      = none :=
  (C6_penalty_coercion ⟨Mode.SO3xR3, 1 / 100, 1 / 1000, -1⟩ 2 none "" []).1 (by norm_num)

/-- C7: with the mode not off, `apply_to_camera` fails its precondition when the
camera metadata is absent or lacks the `cam_idx` key, and the error carries the
camera unchanged (the asserts precede every mutation); with mode off the call is a
no-op that never raises, whatever the metadata. -/
theorem C7_applyToCamera_precondition (opt : CameraOptimizer) (camera : Cameras) :
    (opt.config.mode ≠ Mode.off → camera.metadata = none →
      opt.apply_to_camera camera = Except.error camera) ∧
    (opt.config.mode ≠ Mode.off → ∀ md, camera.metadata = some md →
      md.lookup "cam_idx" = none →
      opt.apply_to_camera camera = Except.error camera) ∧
    (opt.config.mode = Mode.off → opt.apply_to_camera camera = Except.ok camera) := by
  refine ⟨?_, ?_, ?_⟩
  · intro hm hmd
    simp [CameraOptimizer.apply_to_camera, hm, hmd]
  · intro hm md hmd hlk
    simp [CameraOptimizer.apply_to_camera, hm, hmd, hlk]
  · intro hm
    simp [CameraOptimizer.apply_to_camera, hm]

/-- Witness for C7: an SE3-mode instance applied to a camera with no metadata
raises and leaves the camera unchanged. -/
theorem C7_witness :
    (CameraOptimizer.init ⟨Mode.SE3, 1 / 100, 1 / 1000, 1⟩ 1 none "").apply_to_camera
      ⟨none, []⟩ = Except.error ⟨none, []⟩ :=
  (C7_applyToCamera_precondition
      (CameraOptimizer.init ⟨Mode.SE3, 1 / 100, 1 / 1000, 1⟩ 1 none "") ⟨none, []⟩).1
    (by rw [init_mode_of_nonneg _ _ _ _ (by norm_num)]; decide) rfl

/-! Positivity facts for the regularization term. -/

theorem list_sum_pos_of_mem {l : List ℝ} (hnn : ∀ x ∈ l, 0 ≤ x) {x : ℝ}
    (hx : x ∈ l) (hxpos : 0 < x) : 0 < l.sum := by
  induction l with
  | nil => cases hx
  | cons a t ih =>
      rw [List.sum_cons]
      rcases List.mem_cons.mp hx with h | h
      · have ht : 0 ≤ t.sum :=
          List.sum_nonneg (fun y hy => hnn y (List.mem_cons_of_mem _ hy))
        rw [← h]
        linarith
      · have ha : 0 ≤ a := hnn a (List.mem_cons_self _ _)
        have ht := ih (fun y hy => hnn y (List.mem_cons_of_mem _ hy)) h
        linarith

theorem meanR_nonneg (l : List ℝ) (h : ∀ x ∈ l, 0 ≤ x) : 0 ≤ meanR l :=
  div_nonneg (List.sum_nonneg h) (Nat.cast_nonneg _)

theorem meanR_pos {l : List ℝ} (h : ∀ x ∈ l, 0 ≤ x) {x : ℝ} (hx : x ∈ l)
    (hxpos : 0 < x) : 0 < meanR l := by
  have hne : l ≠ [] := by rintro rfl; cases hx
  have hlen : 0 < (l.length : ℝ) := by exact_mod_cast List.length_pos.mpr hne
  exact div_pos (list_sum_pos_of_mem h hx hxpos) hlen

theorem sq3_zero {a b c : ℝ} (h : a ^ 2 + b ^ 2 + c ^ 2 = 0) :
    a = 0 ∧ b = 0 ∧ c = 0 := by
  have ha : a ^ 2 = 0 :=
    le_antisymm (by nlinarith [sq_nonneg b, sq_nonneg c]) (sq_nonneg a)
  have hb : b ^ 2 = 0 :=
    le_antisymm (by nlinarith [sq_nonneg a, sq_nonneg c]) (sq_nonneg b)
  have hc : c ^ 2 = 0 :=
    le_antisymm (by nlinarith [sq_nonneg a, sq_nonneg b]) (sq_nonneg c)
  exact ⟨pow_eq_zero_iff (by norm_num) |>.mp ha,
    pow_eq_zero_iff (by norm_num) |>.mp hb, pow_eq_zero_iff (by norm_num) |>.mp hc⟩

/-- A non-zero parameter row has a positive translation norm or a positive
rotation norm. -/
theorem norms_pos_of_ne_vzero (v : Vec6) (h : v ≠ vzero) :
    0 < transNorm v ∨ 0 < rotNorm v := by
  by_contra hcon
  push_neg at hcon
  obtain ⟨h1, h2⟩ := hcon
  have e1 : transNorm v = 0 := le_antisymm h1 (Real.sqrt_nonneg _)
  have e2 : rotNorm v = 0 := le_antisymm h2 (Real.sqrt_nonneg _)
  have s1 : v 0 ^ 2 + v 1 ^ 2 + v 2 ^ 2 = 0 := by
    have hle := Real.sqrt_eq_zero'.mp e1
    nlinarith [sq_nonneg (v 0), sq_nonneg (v 1), sq_nonneg (v 2)]
  have s2 : v 3 ^ 2 + v 4 ^ 2 + v 5 ^ 2 = 0 := by
    have hle := Real.sqrt_eq_zero'.mp e2
    nlinarith [sq_nonneg (v 3), sq_nonneg (v 4), sq_nonneg (v 5)]
  obtain ⟨g0, g1, g2⟩ := sq3_zero s1
  obtain ⟨g3, g4, g5⟩ := sq3_zero s2
  apply h
  funext j
  fin_cases j <;> assumption

/-- Strict positivity of the regularization scalar when some row is non-zero and
all three penalty factors are positive. -/
theorem regTerm_pos (cfg : CameraOptimizerConfig) (params : List Vec6)
    (v : Vec6) (hv : v ∈ params) (hvnz : v ≠ vzero)
    (hts : 0 < cfg.trans_l2_penalty) (hrs : 0 < cfg.rot_l2_penalty)
    (hps : 0 < cfg.penalty_scale) : 0 < regTerm cfg params := by
  have hTnn : ∀ x ∈ params.map transNorm, 0 ≤ x := by
    intro x hx
    obtain ⟨w, _, rfl⟩ := List.mem_map.mp hx
    exact Real.sqrt_nonneg _
  have hRnn : ∀ x ∈ params.map rotNorm, 0 ≤ x := by
    intro x hx
    obtain ⟨w, _, rfl⟩ := List.mem_map.mp hx
    exact Real.sqrt_nonneg _
  have htm : 0 ≤ meanR (params.map transNorm) := meanR_nonneg _ hTnn
  have hrm : 0 ≤ meanR (params.map rotNorm) := meanR_nonneg _ hRnn
  unfold regTerm
  apply mul_pos _ hps
  rcases norms_pos_of_ne_vzero v hvnz with hpos | hpos
  · have h1 : 0 < meanR (params.map transNorm) * cfg.trans_l2_penalty :=
      mul_pos (meanR_pos hTnn (List.mem_map_of_mem transNorm hv) hpos) hts
    have h2 : 0 ≤ meanR (params.map rotNorm) * cfg.rot_l2_penalty :=
      mul_nonneg hrm hrs.le
    linarith
  · have h1 : 0 < meanR (params.map rotNorm) * cfg.rot_l2_penalty :=
      mul_pos (meanR_pos hRnn (List.mem_map_of_mem rotNorm hv) hpos) hrs
    have h2 : 0 ≤ meanR (params.map transNorm) * cfg.trans_l2_penalty :=
      mul_nonneg htm hts.le
    linarith

/-- C8 (amended): `get_loss_dict` adds nothing in mode off; otherwise it appends,
under the fixed key `camera_opt_regularizer` plus the suffix, the value
`mean(transNorm) * transPenalty + mean(rotNorm) * rotPenalty` scaled by
`penalty_scale`; and that value is strictly positive whenever some parameter row is
non-zero, the penalty-scale is positive and both per-component penalties are
positive. -/
theorem C8_regularizer (cfg : CameraOptimizerConfig) (n : ℕ)
    (nt : Option (List ℕ)) (sfx : String) (params : List Vec6)
    (ld : List (String × ℝ)) :
    ((CameraOptimizer.init cfg n nt sfx).config.mode = Mode.off →
      (CameraOptimizer.init cfg n nt sfx).get_loss_dict ld = some ld) ∧
    (cfg.mode ≠ Mode.off → 0 ≤ cfg.penalty_scale →
      ((CameraOptimizer.init cfg n nt sfx).setParams params).get_loss_dict ld =
        some (ld ++ [(String.append "camera_opt_regularizer" sfx,
          regTerm cfg params)])) ∧
    ((∃ v ∈ params, v ≠ vzero) → 0 < cfg.penalty_scale →
      0 < cfg.trans_l2_penalty → 0 < cfg.rot_l2_penalty →
      0 < regTerm cfg params) := by
  refine ⟨?_, ?_, ?_⟩
  · intro hm
    simp [CameraOptimizer.get_loss_dict, hm]
  · intro hm hps
    have hlt : ¬(cfg.penalty_scale < 0) := not_lt.mpr hps
    have hmode : ((CameraOptimizer.init cfg n nt sfx).setParams params).config.mode
        = cfg.mode := init_mode_of_nonneg cfg n nt sfx hps
    have hreg : regTerm
        (⟨(if cfg.penalty_scale < 0 then Mode.off else cfg.mode), cfg.trans_l2_penalty,
          cfg.rot_l2_penalty, cfg.penalty_scale⟩ : CameraOptimizerConfig) params =
        regTerm cfg params := rfl
    simp [CameraOptimizer.get_loss_dict, hmode, hm, CameraOptimizer.setParams,
      CameraOptimizer.init, hlt, hreg]
  · rintro ⟨v, hv, hvnz⟩ hps hts hrs
    exact regTerm_pos cfg params v hv hvnz hts hrs hps

/-- C8 counterexample: with both per-component penalties zero, a positive
penalty-scale and a non-zero parameter row, the value the code adds is exactly 0,
not strictly positive: the claim's positivity condition is too weak. -/
theorem C8_counterexample :
    ((CameraOptimizer.init ⟨Mode.SO3xR3, 0, 0, 1⟩ 1 none "").setParams
      [vtx]).get_loss_dict [] =
      some [(String.append "camera_opt_regularizer" "",
        regTerm ⟨Mode.SO3xR3, 0, 0, 1⟩ [vtx])] ∧
    regTerm ⟨Mode.SO3xR3, 0, 0, 1⟩ [vtx] = 0 ∧ vtx ≠ vzero ∧ (0 : ℝ) < 1 := by
  refine ⟨?_, ?_, vtx_ne_vzero, one_pos⟩
  · norm_num [CameraOptimizer.get_loss_dict, CameraOptimizer.setParams,
      CameraOptimizer.init]
    decide
  · simp [regTerm]

/-- Witness for the amended C8 at a concrete instance with positive penalties and a
non-zero row. -/
theorem C8_witness : 0 < regTerm ⟨Mode.SO3xR3, 1 / 100, 1 / 1000, 1⟩ [vtx] :=
  (C8_regularizer ⟨Mode.SO3xR3, 1 / 100, 1 / 1000, 1⟩ 1 none "" [vtx] []).2.2
    ⟨vtx, List.mem_cons_self _ _, vtx_ne_vzero⟩ (by norm_num) (by norm_num)
    (by norm_num)

/-- C9: `apply_to_raybundle` leaves the bundle untouched in mode off; in any other
mode it computes corrections for the squeezed per-ray camera indices and replaces
each origin by the old origin plus the correction's translation column, and each
direction by the correction's rotation block applied to the old direction
(matrix-vector product). -/
theorem C9_applyToRays (opt : CameraOptimizer) (rb : RayBundle) :
    (opt.config.mode = Mode.off → opt.apply_to_raybundle rb = some rb) ∧
    (opt.config.mode ≠ Mode.off → ∀ cm,
      opt.forward (squeezeIndices rb.camera_indices) = some cm →
      opt.apply_to_raybundle rb = some
        { rb with
          origins := List.zipWith (fun o m => o + transOf m) rb.origins cm
          directions :=
            List.zipWith (fun d m => (rotOf m).mulVec d) rb.directions cm } ∧
      (∀ p, p < rb.origins.length → p < cm.length →
        (List.zipWith (fun o m => o + transOf m) rb.origins cm).getD p 0 =
          rb.origins.getD p 0 + transOf (cm.getD p identity34)) ∧
      (∀ p, p < rb.directions.length → p < cm.length →
        (List.zipWith (fun d m => (rotOf m).mulVec d) rb.directions cm).getD p 0 =
          (rotOf (cm.getD p identity34)).mulVec (rb.directions.getD p 0))) := by
  constructor
  · intro hm
    simp [CameraOptimizer.apply_to_raybundle, hm]
  · intro hm cm hcm
    refine ⟨?_, ?_, ?_⟩
    · simp [CameraOptimizer.apply_to_raybundle, hm, hcm]
    · intro p hp hpc
      exact getD_zipWith_of_lt _ _ _ p hp hpc 0 0 identity34
    · intro p hp hpc
      exact getD_zipWith_of_lt _ _ _ p hp hpc 0 0 identity34

/-- A one-ray bundle, its camera index carrying the trailing singleton dimension. -/
def rbW : RayBundle := ⟨[fun _ => 0], [fun _ => 1], [[0]]⟩

/-- Witness for C9 at a concrete mode-off instance: the bundle is unchanged. -/
theorem C9_witness :
    (CameraOptimizer.init ⟨Mode.off, 1 / 100, 1 / 1000, 1⟩ 1 none "").apply_to_raybundle
      rbW = some rbW :=
  (C9_applyToRays (CameraOptimizer.init ⟨Mode.off, 1 / 100, 1 / 1000, 1⟩ 1 none "")
    rbW).1 (init_mode_of_nonneg _ _ _ _ (by norm_num))
